import Mathlib

/-!
# Verification of the caching / retry / throttling layer of the audio-proxy service

Shallow embedding of the orchestration layer of the service (metadata cache with
TTL and eviction sweep, retry/backoff controller, request throttling queue,
proxy rotation, format selector, route-handler error classification), translated
from the JavaScript sources (`main.js` and its sibling revisions).

Conventions of the embedding:
* timestamps and delays are `Nat` milliseconds (`Date.now()` values);
* a JS value that may be `undefined`/absent is an `Option`;
* JS truthiness of a string / number field is collapsed to `Option.isSome`
  (an empty string or `0` content length is modelled as `none`);
* a thrown JS error is `Except.error`;
* the outcome of the k-th call to the external extraction library
  (`ytdl.getInfo`) is supplied by an oracle `Nat → Except ExErr VideoInfo`;
* `Map` objects are association lists in insertion order (`Map.set` updates an
  existing key in place, otherwise appends; `Map.delete` removes the entry).
-/

/-- A thrown extraction error: `statusCode` may be absent, `message` is the
error message. Mirrors the fields the service inspects on caught errors. -/
structure ExErr where
  statusCode : Option Nat
  message : String
deriving DecidableEq

/-- A stream format descriptor, restricted to the fields the service reads.
Absent (`undefined`) fields are `none`; JS truthiness of `url` /
`contentLength` / `audioCodec` / `audioQuality` / `qualityLabel` is
modelled as `Option.isSome`. -/
structure Format where
  url : Option String
  contentLength : Option Nat
  isHLS : Bool
  isDashMPD : Bool
  bitrate : Option Int
  mimeType : Option String
  audioCodec : Option String
  audioQuality : Option String
  qualityLabel : Option String
deriving DecidableEq

/-- The part of an `ytdl.getInfo` result the orchestration layer inspects:
`info.formats` and `info.player_response?.streamingData?.adaptiveFormats`
(the latter collapsed to `[]` when the optional chain is `undefined`). -/
structure VideoInfo where
  formats : List Format
  adaptiveFormats : List Format
deriving DecidableEq

/-- Models JS `String.prototype.includes`: `pat` occurs contiguously in `s`. -/
def includesStr (s pat : String) : Bool :=
  (List.range (s.toList.length + 1)).any fun i => pat.toList.isPrefixOf (s.toList.drop i)

/-- Models `s?.includes(pat)` on a possibly-absent string (undefined is falsy). -/
def includesOpt (s : Option String) (pat : String) : Bool :=
  match s with
  | none => false
  | some s => includesStr s pat

/-- Rate-limit classification used by the retry controller:
`error.statusCode === 429 || error.message?.includes('too many requests')`. -/
def isRateLimitedErr (e : ExErr) : Bool :=
  e.statusCode == some 429 || includesStr e.message "too many requests"

/-! ## Retry/backoff controller (`fetchWithRetry`, throttled revision)

```js
async function fetchWithRetry(videoId, maxRetries = 3) {
  let retries = 0;
  while (retries < maxRetries) {
    try { return await ytdl.getInfo(...); }
    catch (error) {
      if ((error.statusCode === 429 || error.message?.includes('too many requests'))
          && retries < maxRetries - 1) {
        const delay = Math.pow(2, retries) * 1000;
        await sleep(delay); retries++;
      } else { throw error; }
    }
  }
}
```
The oracle gives the outcome of the call made at retry counter `retries`.
The retry condition `error.statusCode === 429 || error.message?.includes('too
many requests')` is split out as `isRateLimitedErr`.
The embedding returns `(outcome, delays waited, number of calls made)`;
`none` as outcome is the implicit `undefined` return when the loop is never
entered (only possible for `maxRetries = 0`). The structural `fuel` argument
bounds the loop iterations; `fuel = maxRetries - retries` at every call, and
each iteration increments `retries`, so the fuel never runs out while the
`while` guard holds. -/
def fetchWithRetryAux (oracle : Nat → Except ExErr VideoInfo) (maxRetries : Nat) :
    Nat → Nat → List Nat → Nat → Option (Except ExErr VideoInfo) × List Nat × Nat
  | 0, _, delays, calls => (none, delays, calls)
  | fuel + 1, retries, delays, calls =>
    if retries < maxRetries then
      match oracle retries with
      | .ok v => (some (.ok v), delays, calls + 1)
      | .error e =>
        if isRateLimitedErr e && decide (retries < maxRetries - 1) then
          fetchWithRetryAux oracle maxRetries fuel (retries + 1)
            (delays ++ [2 ^ retries * 1000]) (calls + 1)
        else (some (.error e), delays, calls + 1)
    else (none, delays, calls)

/-- `fetchWithRetry` with its default `maxRetries = 3`; starts with
`retries = 0`, no delays waited, no calls made. -/
def fetchWithRetry (oracle : Nat → Except ExErr VideoInfo) (maxRetries : Nat := 3) :
    Option (Except ExErr VideoInfo) × List Nat × Nat :=
  fetchWithRetryAux oracle maxRetries maxRetries 0 [] 0

/-! ## Proxy rotation and `fetchVideoInfo` (proxy-rotation revision) -/

/-- `getNextProxy`: returns the address at the cursor and advances the cursor
modulo pool length; `null` (here `none`) if the pool is empty. JS indexing out
of range yields `undefined`, modelled by `List.get?`. -/
def getNextProxy (pl : List String) (idx : Nat) : Option String × Nat :=
  if pl.length = 0 then (none, idx)
  else (pl.get? idx, (idx + 1) % pl.length)

/-- The error thrown by `fetchVideoInfo` when all attempts are exhausted and no
attempt was ever made (`lastError` still `null`). -/
def exhaustedErr : ExErr := ⟨none, "Failed to fetch video info after multiple attempts"⟩

/-- The `while (attempts < maxRetries)` loop of `fetchVideoInfo`:

```js
while (attempts < maxRetries) {
  const proxy = getNextProxy();
  try { return await ytdl.getInfo(...); }
  catch (error) {
    lastError = error;
    if (error.statusCode === 429) { attempts++; await sleep(500); }
    else if (error.statusCode === 403 || error.statusCode === 401) { throw error; }
    else { attempts++; await sleep(500); }
  }
}
throw lastError || new Error("Failed to fetch video info after multiple attempts");
```

`remaining = maxRetries - attempts` counts the loop iterations still allowed;
the oracle gives the outcome of the k-th extraction call. Returns
`(outcome, number of calls made, final cursor)`. -/
def fetchVideoInfoLoop (oracle : Nat → Except ExErr VideoInfo) :
    List String → Nat → Nat → Nat → Option ExErr → Except ExErr VideoInfo × Nat × Nat
  | _, idx, 0, calls, lastError => (.error (lastError.getD exhaustedErr), calls, idx)
  | pl, idx, remaining + 1, calls, lastError =>
    let next := getNextProxy pl idx
    match oracle calls with
    | .ok v => (.ok v, calls + 1, next.2)
    | .error e =>
      if e.statusCode == some 429 then
        fetchVideoInfoLoop oracle pl next.2 remaining (calls + 1) (some e)
      else if e.statusCode == some 403 || e.statusCode == some 401 then
        (.error e, calls + 1, next.2)
      else
        fetchVideoInfoLoop oracle pl next.2 remaining (calls + 1) (some e)

/-- `fetchVideoInfo(videoId, maxRetries = proxyList.length)`: the default
`maxRetries` is bound to the pool length **at call time**; then, if the pool is
empty, `refreshProxyList()` is awaited (modelled by `refreshed`: `none` when
the remote fetch fails or returns an invalid/empty list — the pool is then left
unchanged — and `some l` with a non-empty `l` when it succeeds, which replaces
the pool wholesale and resets the cursor to 0); then the attempt loop runs. -/
def fetchVideoInfo (pl : List String) (idx : Nat) (refreshed : Option (List String))
    (oracle : Nat → Except ExErr VideoInfo) : Except ExErr VideoInfo × Nat × Nat :=
  let maxRetries := pl.length
  let st :=
    if pl.length = 0 then
      match refreshed with
      | some l => if 0 < l.length then (l, 0) else (pl, idx)
      | none => (pl, idx)
    else (pl, idx)
  fetchVideoInfoLoop oracle st.1 st.2 maxRetries 0 none

/-! ## Metadata cache (`videoCache`), TTL expiry and eviction sweep -/

/-- A cache entry: the stored metadata and its insertion timestamp. -/
structure CacheEntry where
  info : VideoInfo
  timestamp : Nat
deriving DecidableEq

/-- The `videoCache` Map: association list in insertion order. -/
abbrev Cache := List (String × CacheEntry)

/-- `CACHE_TTL = 24 * 3600000` (24 hours, in ms). -/
def CACHE_TTL : Nat := 24 * 3600000

/-- `MAX_CACHE_SIZE = 1000`. -/
def MAX_CACHE_SIZE : Nat := 1000

/-- `MAX_CACHE_SIZE * 0.8 = 800`, the sweep's stopping threshold. -/
def CLEANUP_TARGET : Nat := MAX_CACHE_SIZE * 8 / 10

/-- `Map.get`: first entry with the given key (keys of a JS Map are unique). -/
def lookupCache : Cache → String → Option CacheEntry
  | [], _ => none
  | (k', e) :: rest, k => if k' == k then some e else lookupCache rest k

/-- `Map.set`: update an existing key in place (keeping its position in
iteration order, as JS Maps do), otherwise append. -/
def setCache : Cache → String → CacheEntry → Cache
  | [], k, e => [(k, e)]
  | (k', e') :: rest, k, e =>
    if k' == k then (k, e) :: rest else (k', e') :: setCache rest k e

/-- `Map.delete`: remove the entry with the given key. -/
def eraseCache : Cache → String → Cache
  | [], _ => []
  | (k', e') :: rest, k => if k' == k then rest else (k', e') :: eraseCache rest k

/-- The `videoCache.forEach` scan of `cleanupCache`: starting from
`oldestKey = null, oldestTime = now`, replace the accumulator whenever an
entry's timestamp is strictly smaller. -/
def findOldestAux : Cache → Option String × Nat → Option String × Nat
  | [], acc => acc
  | (k, e) :: rest, acc =>
    findOldestAux rest (if e.timestamp < acc.2 then (some k, e.timestamp) else acc)

/-- One full scan for the oldest entry, as performed per sweep iteration. -/
def findOldest (now : Nat) (c : Cache) : Option String × Nat :=
  findOldestAux c (none, now)

/-- The `while (videoCache.size > MAX_CACHE_SIZE * 0.8)` sweep of
`cleanupCache`: scan for the entry with the smallest timestamp (strictly below
`now`), delete it, reset the accumulator, repeat; `break` when the scan finds
no candidate. The structural `fuel` bounds the iterations: each iteration
deletes one entry, so `fuel = c.length` at the entry point never runs out. -/
def sweepCache (now : Nat) : Nat → Cache → Cache
  | 0, c => c
  | fuel + 1, c =>
    if CLEANUP_TARGET < c.length then
      match (findOldest now c).1 with
      | some k => sweepCache now fuel (eraseCache c k)
      | none => c
    else c

/-- `cleanupCache()`: sweep only when the size exceeds `MAX_CACHE_SIZE`. -/
def cleanupCache (now : Nat) (c : Cache) : Cache :=
  if MAX_CACHE_SIZE < c.length then sweepCache now c.length c else c

/-- The cache-insertion tail of `getCachedVideoInfo`:

```js
videoCache.set(cacheKey, { info, timestamp: Date.now() });
if (videoCache.size > MAX_CACHE_SIZE) { cleanupCache(); }
```
-/
def putVideoInfo (c : Cache) (vid : String) (info : VideoInfo) (now : Nat) : Cache :=
  let c2 := setCache c vid ⟨info, now⟩
  if MAX_CACHE_SIZE < c2.length then cleanupCache now c2 else c2

/-- `getCachedVideoInfo(videoId)` (throttled revision; the first `main.js`
revision is structurally identical with the raw `ytdl.getInfo` call in place
of `fetchWithRetry`, abstracted here as the `fetch` outcome):

```js
if (videoCache.has(cacheKey)) {
  const cachedData = videoCache.get(cacheKey);
  if (Date.now() - cachedData.timestamp < CACHE_TTL) { return cachedData.info; }
  videoCache.delete(cacheKey);
}
const info = await fetchWithRetry(videoId);
videoCache.set(cacheKey, { info, timestamp: Date.now() });
if (videoCache.size > MAX_CACHE_SIZE) { cleanupCache(); }
return info;
```

Returns `(result, new cache, whether the upstream fetch was performed)`.
`Date.now() - ts` is `Nat` truncated subtraction, which agrees with the JS
comparison for all cases (a negative JS difference and a truncated `0` are
both `< CACHE_TTL`). -/
def getCachedVideoInfo (c : Cache) (vid : String) (now : Nat)
    (fetch : Except ExErr VideoInfo) : Except ExErr VideoInfo × Cache × Bool :=
  match lookupCache c vid with
  | some cachedData =>
    if now - cachedData.timestamp < CACHE_TTL then (.ok cachedData.info, c, false)
    else
      match fetch with
      | .error e => (.error e, eraseCache c vid, true)
      | .ok info => (.ok info, putVideoInfo (eraseCache c vid) vid info now, true)
  | none =>
    match fetch with
    | .error e => (.error e, c, true)
    | .ok info => (.ok info, putVideoInfo c vid info now, true)

/-! ## Format selector (`/mp3/:videoId` handler pipeline) -/

/-- `isReliableFormat(format)`: direct URL, known content length, neither an
HLS playlist nor a DASH manifest. -/
def isReliableFormat (f : Format) : Bool :=
  f.url.isSome && f.contentLength.isSome && !f.isHLS && !f.isDashMPD

/-- The spread `{...format, formatType, isReliable}` the handler builds. -/
structure AFormat where
  format : Format
  formatType : String
  isReliable : Bool
deriving DecidableEq

/-- `{...format, formatType: ft, isReliable: isReliableFormat(format)}`. -/
def annotateFormat (ft : String) (f : Format) : AFormat :=
  ⟨f, ft, isReliableFormat f⟩

/-- The sort comparator:

```js
.sort((a, b) => {
  if (a.isReliable && !b.isReliable) return -1;
  if (!a.isReliable && b.isReliable) return 1;
  return (b.bitrate || 0) - (a.bitrate || 0);
});
```
-/
def cmpFormats (a b : AFormat) : Int :=
  if a.isReliable && !b.isReliable then -1
  else if !a.isReliable && b.isReliable then 1
  else (b.format.bitrate.getD 0) - (a.format.bitrate.getD 0)

/-- `a` may come before `b` under the comparator (comparator values `≤ 0`):
reliability descending, then bitrate descending with missing bitrate as 0. -/
def formatLE (a b : AFormat) : Prop := cmpFormats a b ≤ 0

instance : DecidableRel formatLE :=
  fun a b => inferInstanceAs (Decidable (cmpFormats a b ≤ 0))

instance : IsTotal AFormat formatLE := by
  constructor
  intro a b
  simp only [formatLE, cmpFormats]
  cases ha : a.isReliable <;> cases hb : b.isReliable <;> simp <;> omega

instance : IsTrans AFormat formatLE := by
  constructor
  intro a b c
  simp only [formatLE, cmpFormats]
  cases a.isReliable <;> cases b.isReliable <;> cases c.isReliable <;> simp <;> omega

/-- `Array.prototype.sort` with the comparator above. JS sort is stable
(ES2019) and the comparator is a total preorder, so the result is the unique
stable sort, which insertion sort computes. -/
def sortFormats (l : List AFormat) : List AFormat :=
  List.insertionSort formatLE l

/-- The `regularAudioFormats` list:
`info.formats.filter(f => f.mimeType?.includes("audio") && f.audioCodec)`,
each annotated with `formatType: "regular"`. -/
def regularAudioFormats (info : VideoInfo) : List AFormat :=
  (info.formats.filter fun f => includesOpt f.mimeType "audio" && f.audioCodec.isSome).map
    (annotateFormat "regular")

/-- The `adaptiveAudioFormats` list:
`adaptiveFormats.filter(f => f.mimeType?.includes("audio") || (f.audioQuality && !f.qualityLabel))`,
each annotated with `formatType: "adaptive"`. -/
def adaptiveAudioFormats (info : VideoInfo) : List AFormat :=
  (info.adaptiveFormats.filter fun f =>
      includesOpt f.mimeType "audio" || (f.audioQuality.isSome && !f.qualityLabel.isSome)).map
    (annotateFormat "adaptive")

/-- `allAudioFormats = [...regular, ...adaptive].sort(comparator)`. -/
def allAudioFormats (info : VideoInfo) : List AFormat :=
  sortFormats (regularAudioFormats info ++ adaptiveAudioFormats info)

/-- `recommendedFormat = allAudioFormats.find(f => f.isReliable) || allAudioFormats[0]`
(the handler only reaches this with a non-empty list; `[0]` of the empty list
would be `undefined`, modelled by `head?`). -/
def recommendedFormat (l : List AFormat) : Option AFormat :=
  (l.find? (·.isReliable)) <|> l.head?

/-! ## `/mp3/:videoId` handler (status codes and cache effect) -/

/-- The handler's `catch` classification (first `main.js` revision):
`'sign in'` in the message → 401, `statusCode === 429` → 429, else 500. -/
def classifyMp3Error (e : ExErr) : Nat :=
  if includesStr e.message "sign in" then 401
  else if e.statusCode == some 429 then 429
  else 500

/-- The `/mp3/:videoId` handler, modelled at the level of the HTTP status and
the cache effect: fetch via the cache, classify errors, 404 when no audio
format survives the filters, 200 otherwise. Response bodies are not modelled.
Returns `(status, new cache)`. -/
def mp3Handler (c : Cache) (vid : String) (now : Nat)
    (fetch : Except ExErr VideoInfo) : Nat × Cache :=
  match getCachedVideoInfo c vid now fetch with
  | (.error e, c', _) => (classifyMp3Error e, c')
  | (.ok info, c', _) =>
    if (allAudioFormats info).isEmpty then (404, c') else (200, c')

/-! ## Cookie reload endpoint (`POST /reload-cookies`) -/

/-- A parsed cookie record (`parseCookiesFile`); `parseInt(parts[4])` is
modelled by `String.toInt?` with `NaN` as `none`. -/
structure Cookie where
  name : String
  value : String
  domain : String
  path : String
  expires : Option Int
  httpOnly : Bool
  secure : Bool
deriving DecidableEq

/-- One line of the Netscape cookies file: skipped when it is a comment or
blank or has fewer than 7 tab-separated fields, otherwise a cookie record. -/
def parseCookieLine (line : String) : Option Cookie :=
  if line.startsWith "#" || line.trim == "" then none
  else
    let parts := line.splitOn "\t"
    if 7 ≤ parts.length then
      some ⟨parts.getD 5 "", parts.getD 6 "", parts.getD 0 "", parts.getD 2 "",
        (parts.getD 4 "").toInt?, false, (parts.getD 3 "" == "TRUE")⟩
    else none

/-- `parseCookiesFile(filePath)`: the whole function body is wrapped in
`try / catch (error) { console.error(...); return []; }`, so a failed
`fs.readFileSync` (modelled by `.error`) yields `[]` and nothing is ever
thrown out of this function. On success the content is split into lines and
each line parsed. -/
def parseCookiesFile (readResult : Except String String) : List Cookie :=
  match readResult with
  | .error _ => []
  | .ok content => (content.splitOn "\n").filterMap parseCookieLine

/-- The `POST /reload-cookies` handler:

```js
try {
  cookies = parseCookiesFile(COOKIES_PATH);
  res.json({ success: true, message: `Reloaded ${cookies.length} cookies` });
} catch (error) { res.status(500).json({ error: "Failed to reload cookies" }); }
```

`parseCookiesFile` is total (it catches internally), so the `try` body cannot
throw and the handler always answers 200 with the freshly parsed list. -/
def reloadCookiesHandler (readResult : Except String String) : Nat × List Cookie :=
  (200, parseCookiesFile readResult)

/-! ## Request throttling queue (`addToQueue` / `processQueue`)

```js
const requestQueue = [];
let isProcessing = false;
const THROTTLE_DELAY = 500;

async function processQueue() {
  if (isProcessing || requestQueue.length === 0) return;
  isProcessing = true;
  const { task, resolve, reject } = requestQueue.shift();
  try { const result = await task(); resolve(result); }
  catch (error) { reject(error); }
  finally { isProcessing = false; setTimeout(processQueue, THROTTLE_DELAY); }
}

function addToQueue(task) {
  return new Promise((resolve, reject) => {
    requestQueue.push({ task, resolve, reject });
    if (!isProcessing) processQueue();
  });
}
```

The single-threaded event loop is modelled as a deterministic machine driven
by a schedule of stimuli, each carrying the (millisecond) time at which it
runs; every stimulus executes one synchronous code segment atomically:

* `enqueue t`  — a caller invokes `addToQueue` at time `t` (tasks are numbered
  by arrival: the n-th enqueued task has id `n`);
* `complete t` — the promise awaited by `processQueue` settles at time `t`,
  resuming the continuation: `resolve`/`reject` runs (the future is settled),
  then the `finally` block clears `isProcessing` and schedules a
  `processQueue` timeout for `t + THROTTLE_DELAY`;
* `timerFire t` — the earliest pending `setTimeout(processQueue, ...)`
  callback runs at time `t` (only valid once its fire time has been reached).

Stimuli whose time is in the past, completions with no task in flight, and
timer fires with no pending (or not yet due) timeout are ignored. `inFlight`
is the list of tasks that have been started and not yet completed — mutual
exclusion is a property to be proved, not built into the state type. -/

/-- `THROTTLE_DELAY = 500` ms between requests. -/
def THROTTLE_DELAY : Nat := 500

/-- The queue-related module state plus the event-loop clock. -/
structure QState where
  queue : List Nat
  nextId : Nat
  isProcessing : Bool
  inFlight : List Nat
  timers : List Nat
  clock : Nat
deriving DecidableEq

/-- Module state at startup. -/
def initQ : QState := ⟨[], 0, false, [], [], 0⟩

/-- Observable events of a queue execution, each stamped with its time.
`completed` covers both the settlement of the task's future (`resolve` /
`reject`) and the completion of its execution: both happen in the same
synchronous segment. `byTimer` records whether a start was triggered by the
throttle timeout (as opposed to directly by `addToQueue`). -/
inductive QEvent
  | enqueued (id t : Nat)
  | started (id t : Nat) (byTimer : Bool)
  | completed (id t : Nat)
deriving DecidableEq

/-- External stimuli driving the event loop. -/
inductive QAction
  | enqueue (t : Nat)
  | complete (t : Nat)
  | timerFire (t : Nat)
deriving DecidableEq

/-- The synchronous body of `processQueue` up to its `await`: return if
`isProcessing` or the queue is empty; otherwise set `isProcessing`, shift the
head task and start running it. -/
def processQueueStep (s : QState) (t : Nat) (byTimer : Bool) : QState × List QEvent :=
  match s.queue, s.isProcessing with
  | [], _ => (s, [])
  | _ :: _, true => (s, [])
  | id :: rest, false =>
    ({ s with isProcessing := true, queue := rest, inFlight := s.inFlight ++ [id] },
     [.started id t byTimer])

/-- One stimulus of the event loop. -/
def stepQ (s : QState) (a : QAction) : QState × List QEvent :=
  match a with
  | .enqueue t =>
    if t < s.clock then (s, [])
    else
      let s1 := { s with queue := s.queue ++ [s.nextId], nextId := s.nextId + 1, clock := t }
      if s.isProcessing then (s1, [.enqueued s.nextId t])
      else
        let r := processQueueStep s1 t false
        (r.1, .enqueued s.nextId t :: r.2)
  | .complete t =>
    if t < s.clock then (s, [])
    else
      match s.inFlight with
      | [] => (s, [])
      | id :: restF =>
        let s1 := { s with inFlight := restF, isProcessing := false,
                           timers := s.timers ++ [t + THROTTLE_DELAY], clock := t }
        (s1, [.completed id t])
  | .timerFire t =>
    if t < s.clock then (s, [])
    else
      match s.timers with
      | [] => (s, [])
      | ft :: restT =>
        if ft ≤ t then processQueueStep { s with timers := restT, clock := t } t true
        else (s, [])

/-- Run a schedule from a state, accumulating the event trace. -/
def runQFrom : QState → List QAction → QState × List QEvent
  | s, [] => (s, [])
  | s, a :: rest =>
    let r := stepQ s a
    let r' := runQFrom r.1 rest
    (r'.1, r.2 ++ r'.2)

/-- Run a schedule from the startup state. -/
def runQueue (sched : List QAction) : QState × List QEvent :=
  runQFrom initQ sched

/-- The ids of the tasks started so far, in start order. -/
def startedIds (tr : List QEvent) : List Nat :=
  tr.filterMap fun e => match e with | .started id _ _ => some id | _ => none

/-- The ids of the tasks completed (and settled) so far, in completion order. -/
def completedIds (tr : List QEvent) : List Nat :=
  tr.filterMap fun e => match e with | .completed id _ => some id | _ => none

/-! ## Concrete inputs used by witnesses and counterexamples -/

/-- An oracle whose every call fails rate-limited. -/
def rlOracle : Nat → Except ExErr VideoInfo := fun _ => .error ⟨some 429, "too many requests"⟩

/-- A non-rate-limited server error. -/
def err500 : ExErr := ⟨some 500, "Internal Server Error"⟩

/-- An authentication failure (HTTP 403). -/
def authErr403 : ExErr := ⟨some 403, "Status code: 403"⟩

/-- An upstream sign-in-required error (message matched by the handler). -/
def signInErr : ExErr := ⟨none, "please sign in to continue"⟩

/-- A minimal metadata blob. -/
def cexInfo : VideoInfo := ⟨[], []⟩

/-- A one-entry cache whose entry was inserted at time 0. -/
def cacheA : Cache := [("a", ⟨cexInfo, 0⟩)]

/-- A cache filled to exactly `MAX_CACHE_SIZE` entries, all inserted at the
same instant (timestamp 5). -/
def bigCache : Cache := (List.range 1000).map fun i => (toString i, ⟨cexInfo, 5⟩)

/-- A reliable format with bitrate 128. -/
def fmtRel128 : Format :=
  ⟨some "u", some 1000, false, false, some 128, some "audio/mp4", some "aac", none, none⟩

/-- An unreliable format (no direct url, no length) with bitrate 320. -/
def fmtUnrel320 : Format :=
  ⟨none, none, false, false, some 320, some "audio/webm", some "opus", none, none⟩

/-- An unreliable format with bitrate 128. -/
def fmtUnrel128 : Format :=
  ⟨none, none, false, false, some 128, some "audio/webm", some "opus", none, none⟩

/-- The inductive invariant of the queue machine, relating the module state to
the trace observed so far: starts happen in arrival order (the started ids
followed by the queued ids are exactly the ids handed out), completions and
settlements follow starts, at most one task is ever running, `isProcessing`
flags exactly the presence of a running task, every pending throttle timeout
was scheduled `THROTTLE_DELAY` after some completion, and every timer-triggered
start happened at least `THROTTLE_DELAY` after some completion. -/
structure QueueInv (s : QState) (tr : List QEvent) : Prop where
  inv_started : startedIds tr ++ s.queue = List.range s.nextId
  inv_completed : completedIds tr ++ s.inFlight = startedIds tr
  inv_flight : s.inFlight.length ≤ 1
  inv_proc : s.isProcessing = !s.inFlight.isEmpty
  inv_timers : ∀ ft ∈ s.timers, ∃ id c, QEvent.completed id c ∈ tr ∧ ft = c + THROTTLE_DELAY
  inv_spacing : ∀ id t, QEvent.started id t true ∈ tr →
    ∃ id' c, QEvent.completed id' c ∈ tr ∧ c + THROTTLE_DELAY ≤ t

/-! ## Helper lemmas -/
theorem lookupCache_eq_some_mem {c : Cache} {k : String} {e : CacheEntry}
    (h : lookupCache c k = some e) : (k, e) ∈ c := by
  induction c with
  | nil => simp [lookupCache] at h
  | cons p rest ih =>
    obtain ⟨k2, e2⟩ := p
    by_cases hk : (k2 == k) = true
    · rw [lookupCache, if_pos hk] at h
      injection h with h
      subst h
      have : k2 = k := by simpa using hk
      subst this
      exact List.mem_cons_self _ _
    · rw [lookupCache, if_neg hk] at h
      exact List.mem_cons_of_mem _ (ih h)

theorem lookup_setCache_self (c : Cache) (k : String) (e : CacheEntry) :
    lookupCache (setCache c k e) k = some e := by
  induction c with
  | nil => simp [setCache, lookupCache]
  | cons p rest ih =>
    obtain ⟨k2, e2⟩ := p
    by_cases hk : (k2 == k) = true
    · rw [setCache, if_pos hk, lookupCache, if_pos (by simp)]
    · rw [setCache, if_neg hk, lookupCache, if_neg hk]
      exact ih

theorem eraseCache_sublist (c : Cache) (k : String) : (eraseCache c k).Sublist c := by
  induction c with
  | nil => simp [eraseCache]
  | cons p rest ih =>
    obtain ⟨k2, e2⟩ := p
    by_cases hk : (k2 == k) = true
    · rw [eraseCache, if_pos hk]
      exact List.sublist_cons_self _ _
    · rw [eraseCache, if_neg hk]
      exact ih.cons₂ _

theorem lookup_eraseCache_ne (c : Cache) {k k0 : String} (h : k ≠ k0) :
    lookupCache (eraseCache c k0) k = lookupCache c k := by
  induction c with
  | nil => simp [eraseCache]
  | cons p rest ih =>
    obtain ⟨k2, e2⟩ := p
    by_cases hk : (k2 == k0) = true
    · have hk2 : k2 = k0 := by simpa using hk
      rw [eraseCache, if_pos hk, lookupCache, if_neg (by simp [hk2]; exact fun hh => h hh.symm)]
    · rw [eraseCache, if_neg hk]
      by_cases hkk : (k2 == k) = true
      · rw [lookupCache, if_pos hkk, lookupCache, if_pos hkk]
      · rw [lookupCache, if_neg hkk, lookupCache, if_neg hkk]
        exact ih

theorem lookup_eraseCache_self (c : Cache) (k : String)
    (hnd : (c.map Prod.fst).Nodup) : lookupCache (eraseCache c k) k = none := by
  induction c with
  | nil => simp [eraseCache, lookupCache]
  | cons p rest ih =>
    obtain ⟨k2, e2⟩ := p
    simp only [List.map_cons, List.nodup_cons] at hnd
    by_cases hk : (k2 == k) = true
    · have hk2 : k2 = k := by simpa using hk
      rw [eraseCache, if_pos hk]
      subst hk2
      -- k2 not among the keys of rest, so lookup misses
      clear ih
      induction rest with
      | nil => simp [lookupCache]
      | cons q rest2 ih2 =>
        obtain ⟨k3, e3⟩ := q
        simp only [List.map_cons, List.mem_cons, List.nodup_cons] at hnd
        rw [lookupCache, if_neg (by simp; exact fun hh => hnd.1 (Or.inl hh.symm))]
        exact ih2 ⟨fun hh => hnd.1 (Or.inr hh), hnd.2.2⟩
    · rw [eraseCache, if_neg hk, lookupCache, if_neg hk]
      exact ih hnd.2

theorem keys_setCache_subset (c : Cache) (k : String) (e : CacheEntry) :
    ∀ x ∈ (setCache c k e).map Prod.fst, x = k ∨ x ∈ c.map Prod.fst := by
  induction c with
  | nil => simp [setCache]
  | cons p rest ih =>
    obtain ⟨k2, e2⟩ := p
    by_cases hk : (k2 == k) = true
    · rw [setCache, if_pos hk]
      intro x hx
      simp only [List.map_cons, List.mem_cons] at hx ⊢
      rcases hx with h | h
      · exact Or.inl h
      · exact Or.inr (Or.inr h)
    · rw [setCache, if_neg hk]
      intro x hx
      simp only [List.map_cons, List.mem_cons] at hx ⊢
      rcases hx with h | h
      · exact Or.inr (Or.inl h)
      · rcases ih x h with h' | h'
        · exact Or.inl h'
        · exact Or.inr (Or.inr h')

theorem nodup_keys_setCache (c : Cache) (k : String) (e : CacheEntry)
    (hnd : (c.map Prod.fst).Nodup) : ((setCache c k e).map Prod.fst).Nodup := by
  induction c with
  | nil => simp [setCache]
  | cons p rest ih =>
    obtain ⟨k2, e2⟩ := p
    simp only [List.map_cons, List.nodup_cons] at hnd
    by_cases hk : (k2 == k) = true
    · have hk2 : k2 = k := by simpa using hk
      rw [setCache, if_pos hk]
      subst hk2
      simp only [List.map_cons, List.nodup_cons]
      exact hnd
    · have hk2 : k2 ≠ k := by simpa using hk
      rw [setCache, if_neg hk]
      simp only [List.map_cons, List.nodup_cons]
      refine ⟨fun hmem => ?_, ih hnd.2⟩
      rcases keys_setCache_subset rest k e _ hmem with h | h
      · exact hk2 h
      · exact hnd.1 h

theorem nodup_keys_eraseCache (c : Cache) (k : String)
    (hnd : (c.map Prod.fst).Nodup) : ((eraseCache c k).map Prod.fst).Nodup :=
  (((eraseCache_sublist c k).map Prod.fst).nodup hnd)

theorem lookup_unique (c : Cache) {k : String} {e e0 : CacheEntry}
    (hnd : (c.map Prod.fst).Nodup) (hmem : (k, e0) ∈ c)
    (hl : lookupCache c k = some e) : e0 = e := by
  induction c with
  | nil => simp at hmem
  | cons p rest ih =>
    obtain ⟨k2, e2⟩ := p
    simp only [List.map_cons, List.nodup_cons] at hnd
    rcases List.mem_cons.mp hmem with h | h
    · injection h with h1 h2
      subst h1
      rw [lookupCache, if_pos (by simp)] at hl
      injection hl with hl
      exact h2.trans hl
    · by_cases hk : (k2 == k) = true
      · have hk2 : k2 = k := by simpa using hk
        subst hk2
        exact absurd (List.mem_map_of_mem Prod.fst h) hnd.1
      · rw [lookupCache, if_neg hk] at hl
        exact ih hnd.2 h hl

theorem findOldestAux_cases (c : Cache) (acc : Option String × Nat) :
    findOldestAux c acc = acc ∨
      ∃ k e, (k, e) ∈ c ∧ findOldestAux c acc = (some k, e.timestamp) ∧ e.timestamp < acc.2 := by
  induction c generalizing acc with
  | nil => exact Or.inl rfl
  | cons p rest ih =>
    obtain ⟨k2, e2⟩ := p
    rw [findOldestAux]
    by_cases h2 : e2.timestamp < acc.2
    · rw [if_pos h2]
      rcases ih (some k2, e2.timestamp) with h | ⟨k, e, hmem, heq, hlt⟩
      · exact Or.inr ⟨k2, e2, List.mem_cons_self _ _, h, h2⟩
      · exact Or.inr ⟨k, e, List.mem_cons_of_mem _ hmem, heq, hlt.trans h2⟩
    · rw [if_neg h2]
      rcases ih acc with h | ⟨k, e, hmem, heq, hlt⟩
      · exact Or.inl h
      · exact Or.inr ⟨k, e, List.mem_cons_of_mem _ hmem, heq, hlt⟩

theorem findOldestAux_min (c : Cache) (acc : Option String × Nat) :
    ∀ p ∈ c, (findOldestAux c acc).2 ≤ p.2.timestamp := by
  induction c generalizing acc with
  | nil => simp
  | cons q rest ih =>
    obtain ⟨k2, e2⟩ := q
    intro p hp
    rw [findOldestAux]
    have hsnd : ∀ acc2 : Option String × Nat, (findOldestAux rest acc2).2 ≤ acc2.2 := by
      intro acc2
      rcases findOldestAux_cases rest acc2 with h | ⟨k, e, _, heq, hlt⟩
      · rw [h]
      · rw [heq]; exact le_of_lt hlt
    rcases List.mem_cons.mp hp with h | h
    · subst h
      by_cases h2 : e2.timestamp < acc.2
      · rw [if_pos h2]
        exact hsnd _
      · rw [if_neg h2]
        refine le_trans (hsnd acc) ?_
        show acc.2 ≤ e2.timestamp
        omega
    · by_cases h2 : e2.timestamp < acc.2
      · rw [if_pos h2]; exact ih _ p h
      · rw [if_neg h2]; exact ih _ p h

theorem findOldestAux_none (c : Cache) (acc : Option String × Nat)
    (hres : (findOldestAux c acc).1 = none) : findOldestAux c acc = acc ∧ acc.1 = none := by
  rcases findOldestAux_cases c acc with h | ⟨k, e, _, heq, _⟩
  · rw [h] at hres
    exact ⟨h, hres⟩
  · rw [heq] at hres
    simp at hres

theorem findOldest_some (now : Nat) (c : Cache) (k : String)
    (h : (findOldest now c).1 = some k) :
    ∃ e, (k, e) ∈ c ∧ e.timestamp < now ∧ ∀ p ∈ c, e.timestamp ≤ p.2.timestamp := by
  rcases findOldestAux_cases c (none, now) with hc | ⟨k', e, hmem, heq, hlt⟩
  · rw [findOldest, hc] at h
    simp at h
  · rw [findOldest, heq] at h
    injection h with h
    subst h
    refine ⟨e, hmem, hlt, fun p hp => ?_⟩
    have := findOldestAux_min c (none, now) p hp
    rw [heq] at this
    exact this

theorem findOldest_none (now : Nat) (c : Cache)
    (h : (findOldest now c).1 = none) : ∀ p ∈ c, now ≤ p.2.timestamp := by
  intro p hp
  have := findOldestAux_min c (none, now) p hp
  rw [(findOldestAux_none c _ h).1] at this
  exact this

theorem findOldestAux_fresh (c : Cache) :
    ∀ acc : Option String × Nat, (∀ p ∈ c, acc.2 ≤ p.2.timestamp) →
      findOldestAux c acc = acc := by
  induction c with
  | nil => intro acc _; rfl
  | cons q rest ih =>
    intro acc h
    rw [findOldestAux, if_neg (by have := h q (List.mem_cons_self _ _); omega)]
    exact ih acc fun p hp => h p (List.mem_cons_of_mem _ hp)

theorem findOldest_eq_of_fresh (now : Nat) (c : Cache)
    (h : ∀ p ∈ c, now ≤ p.2.timestamp) : findOldest now c = (none, now) :=
  findOldestAux_fresh c (none, now) h

theorem eraseCache_length (c : Cache) (k : String) (e : CacheEntry)
    (hmem : (k, e) ∈ c) : (eraseCache c k).length + 1 = c.length := by
  induction c with
  | nil => simp at hmem
  | cons p rest ih =>
    obtain ⟨k2, e2⟩ := p
    by_cases hk : (k2 == k) = true
    · rw [eraseCache, if_pos hk]
      simp
    · rw [eraseCache, if_neg hk]
      rcases List.mem_cons.mp hmem with h | h
      · injection h with h1 _
        simp [h1] at hk
      · simp only [List.length_cons]
        rw [← ih h]

theorem sweepCache_spec (now : Nat) :
    ∀ (fuel : Nat) (c : Cache), c.length ≤ fuel →
      (sweepCache now fuel c).length ≤ CLEANUP_TARGET ∨
        ∀ p ∈ sweepCache now fuel c, now ≤ p.2.timestamp := by
  intro fuel
  induction fuel with
  | zero =>
    intro c hc
    rw [sweepCache]
    left
    omega
  | succ fuel ih =>
    intro c hc
    rw [sweepCache]
    by_cases hlen : CLEANUP_TARGET < c.length
    · rw [if_pos hlen]
      cases hfo : (findOldest now c).1 with
      | none => exact Or.inr (findOldest_none now c hfo)
      | some k =>
        obtain ⟨e, hmem, _, _⟩ := findOldest_some now c k hfo
        have hlt := eraseCache_length c k e hmem
        exact ih (eraseCache c k) (by omega)
    · rw [if_neg hlen]
      left
      omega

theorem sweepCache_fresh (now : Nat) :
    ∀ (fuel : Nat) (c : Cache) (k : String) (e : CacheEntry),
      (c.map Prod.fst).Nodup → lookupCache c k = some e → now ≤ e.timestamp →
      lookupCache (sweepCache now fuel c) k = some e := by
  intro fuel
  induction fuel with
  | zero =>
    intro c k e _ hl _
    rw [sweepCache]
    exact hl
  | succ fuel ih =>
    intro c k e hnd hl hts
    rw [sweepCache]
    by_cases hlen : CLEANUP_TARGET < c.length
    · rw [if_pos hlen]
      cases hfo : (findOldest now c).1 with
      | none => exact hl
      | some k0 =>
        obtain ⟨e0, hmem0, hts0, _⟩ := findOldest_some now c k0 hfo
        have hne : k ≠ k0 := by
          intro heq
          subst heq
          have he := lookup_unique c hnd hmem0 hl
          rw [he] at hts0
          omega
        refine ih (eraseCache c k0) k e (nodup_keys_eraseCache c k0 hnd) ?_ hts
        rw [lookup_eraseCache_ne c hne]
        exact hl
    · rw [if_neg hlen]
      exact hl

theorem lookup_putVideoInfo_self (c : Cache) (vid : String) (info : VideoInfo) (now : Nat)
    (hnd : (c.map Prod.fst).Nodup) :
    lookupCache (putVideoInfo c vid info now) vid = some ⟨info, now⟩ := by
  rw [putVideoInfo]
  have hset := lookup_setCache_self c vid ⟨info, now⟩
  have hndset := nodup_keys_setCache c vid ⟨info, now⟩ hnd
  by_cases h1 : MAX_CACHE_SIZE < (setCache c vid ⟨info, now⟩).length
  · rw [if_pos h1, cleanupCache]
    by_cases h2 : MAX_CACHE_SIZE < (setCache c vid ⟨info, now⟩).length
    · rw [if_pos h2]
      exact sweepCache_fresh now _ _ vid _ hndset hset le_rfl
    · omega
  · rw [if_neg h1]
    exact hset

theorem setCache_append (c : Cache) (k : String) (e : CacheEntry)
    (h : ∀ p ∈ c, (p.1 == k) = false) : setCache c k e = c ++ [(k, e)] := by
  induction c with
  | nil => rfl
  | cons p rest ih =>
    obtain ⟨k2, e2⟩ := p
    rw [setCache, if_neg (by simpa using h (k2, e2) (List.mem_cons_self _ _))]
    rw [List.cons_append]
    congr 1
    exact ih fun q hq => h q (List.mem_cons_of_mem _ hq)

theorem startedIds_append (a b : List QEvent) :
    startedIds (a ++ b) = startedIds a ++ startedIds b := by
  simp [startedIds]

theorem completedIds_append (a b : List QEvent) :
    completedIds (a ++ b) = completedIds a ++ completedIds b := by
  simp [completedIds]

theorem startedIds_enq (id t : Nat) : startedIds [QEvent.enqueued id t] = [] := rfl

theorem startedIds_sta (id t : Nat) (b : Bool) : startedIds [QEvent.started id t b] = [id] := rfl

theorem startedIds_com (id t : Nat) : startedIds [QEvent.completed id t] = [] := rfl

theorem completedIds_enq (id t : Nat) : completedIds [QEvent.enqueued id t] = [] := rfl

theorem completedIds_sta (id t : Nat) (b : Bool) : completedIds [QEvent.started id t b] = [] := rfl

theorem completedIds_com (id t : Nat) : completedIds [QEvent.completed id t] = [id] := rfl

theorem queueInv_init : QueueInv initQ [] := by
  constructor <;> simp [initQ, startedIds, completedIds]

theorem processQueueStep_inv (s : QState) (tr : List QEvent) (t : Nat) (byTimer : Bool)
    (h : QueueInv s tr)
    (hsp : byTimer = true → ∃ id' c, QEvent.completed id' c ∈ tr ∧ c + THROTTLE_DELAY ≤ t) :
    QueueInv (processQueueStep s t byTimer).1 (tr ++ (processQueueStep s t byTimer).2) := by
  obtain ⟨h1, h2, h3, h4, h5, h6⟩ := h
  cases hq : s.queue with
  | nil =>
    have hstep : processQueueStep s t byTimer = (s, []) := by
      rw [processQueueStep, hq]
    rw [hstep, List.append_nil]
    exact ⟨h1, h2, h3, h4, h5, h6⟩
  | cons id rest =>
    cases hp : s.isProcessing with
    | true =>
      have hstep : processQueueStep s t byTimer = (s, []) := by
        rw [processQueueStep, hq, hp]
      rw [hstep, List.append_nil]
      exact ⟨h1, h2, h3, h4, h5, h6⟩
    | false =>
      have hempty : s.inFlight = [] := by
        rw [hp] at h4
        cases hfl : s.inFlight with
        | nil => rfl
        | cons a b => rw [hfl] at h4; simp at h4
      have hstep : processQueueStep s t byTimer =
          ({ s with isProcessing := true, queue := rest, inFlight := s.inFlight ++ [id] },
            [QEvent.started id t byTimer]) := by
        rw [processQueueStep, hq, hp]
      rw [hstep]
      rw [hq] at h1
      constructor
      · show startedIds (tr ++ [QEvent.started id t byTimer]) ++ rest = List.range s.nextId
        rw [startedIds_append]
        rw [← h1]
        simp [startedIds]
      · show completedIds (tr ++ [QEvent.started id t byTimer]) ++ (s.inFlight ++ [id]) =
          startedIds (tr ++ [QEvent.started id t byTimer])
        have h2e : completedIds tr = startedIds tr := by
          rw [hempty, List.append_nil] at h2
          exact h2
        rw [completedIds_append, startedIds_append, completedIds_sta, startedIds_sta,
          hempty, List.append_nil, List.nil_append, h2e]
      · show (s.inFlight ++ [id]).length ≤ 1
        simp [hempty]
      · show true = !(s.inFlight ++ [id]).isEmpty
        simp [hempty]
      · intro ft hft
        obtain ⟨i2, c2, hmem, heq⟩ := h5 ft hft
        exact ⟨i2, c2, List.mem_append_left _ hmem, heq⟩
      · intro i2 t2 hmem
        rcases List.mem_append.mp hmem with hmem | hmem
        · obtain ⟨i3, c3, hm3, hle3⟩ := h6 i2 t2 hmem
          exact ⟨i3, c3, List.mem_append_left _ hm3, hle3⟩
        · simp at hmem
          obtain ⟨h_i, h_t, h_b⟩ := hmem
          subst h_t
          obtain ⟨i3, c3, hm3, hle3⟩ := hsp h_b
          exact ⟨i3, c3, List.mem_append_left _ hm3, hle3⟩

theorem stepQ_inv (s : QState) (tr : List QEvent) (a : QAction) (h : QueueInv s tr) :
    QueueInv (stepQ s a).1 (tr ++ (stepQ s a).2) := by
  obtain ⟨h1, h2, h3, h4, h5, h6⟩ := h
  cases a with
  | enqueue t =>
    by_cases hc : t < s.clock
    · have hstep : stepQ s (.enqueue t) = (s, []) := by
        rw [stepQ, if_pos hc]
      rw [hstep, List.append_nil]
      exact ⟨h1, h2, h3, h4, h5, h6⟩
    · have hpush : QueueInv
          { s with queue := s.queue ++ [s.nextId], nextId := s.nextId + 1, clock := t }
          (tr ++ [QEvent.enqueued s.nextId t]) := by
        constructor
        · show startedIds (tr ++ [QEvent.enqueued s.nextId t]) ++ (s.queue ++ [s.nextId]) =
            List.range (s.nextId + 1)
          rw [startedIds_append, startedIds_enq, List.append_nil, List.range_succ,
            ← List.append_assoc, h1]
        · show completedIds (tr ++ [QEvent.enqueued s.nextId t]) ++ s.inFlight =
            startedIds (tr ++ [QEvent.enqueued s.nextId t])
          rw [completedIds_append, startedIds_append, completedIds_enq, startedIds_enq,
            List.append_nil, List.append_nil, h2]
        · exact h3
        · exact h4
        · intro ft hft
          obtain ⟨i2, c2, hmem, heq⟩ := h5 ft hft
          exact ⟨i2, c2, List.mem_append_left _ hmem, heq⟩
        · intro i2 t2 hmem
          rcases List.mem_append.mp hmem with hmem | hmem
          · obtain ⟨i3, c3, hm3, hle3⟩ := h6 i2 t2 hmem
            exact ⟨i3, c3, List.mem_append_left _ hm3, hle3⟩
          · simp at hmem
      cases hp : s.isProcessing with
      | true =>
        have hstep : stepQ s (.enqueue t) =
            ({ s with queue := s.queue ++ [s.nextId], nextId := s.nextId + 1, clock := t },
              [QEvent.enqueued s.nextId t]) := by
          rw [stepQ, if_neg hc, hp]
          rfl
        rw [hstep]
        exact hpush
      | false =>
        have hstep : stepQ s (.enqueue t) =
            ((processQueueStep
                { s with queue := s.queue ++ [s.nextId], nextId := s.nextId + 1, clock := t }
                t false).1,
              QEvent.enqueued s.nextId t ::
                (processQueueStep
                  { s with queue := s.queue ++ [s.nextId], nextId := s.nextId + 1, clock := t }
                  t false).2) := by
          rw [stepQ, if_neg hc, hp]
          rfl
        rw [hstep]
        have := processQueueStep_inv _ _ t false hpush (by intro hb; simp at hb)
        simpa [List.append_assoc] using this
  | complete t =>
    by_cases hc : t < s.clock
    · have hstep : stepQ s (.complete t) = (s, []) := by
        rw [stepQ, if_pos hc]
      rw [hstep, List.append_nil]
      exact ⟨h1, h2, h3, h4, h5, h6⟩
    · cases hfl : s.inFlight with
      | nil =>
        have hstep : stepQ s (.complete t) = (s, []) := by
          rw [stepQ, if_neg hc, hfl]
        rw [hstep, List.append_nil]
        exact ⟨h1, h2, h3, h4, h5, h6⟩
      | cons id restF =>
        have hrest : restF = [] := by
          rw [hfl] at h3
          simp only [List.length_cons] at h3
          exact List.eq_nil_of_length_eq_zero (by omega)
        have hstep : stepQ s (.complete t) =
            ({ s with inFlight := restF, isProcessing := false, timers := s.timers ++ [t + THROTTLE_DELAY], clock := t },
              [QEvent.completed id t]) := by
          rw [stepQ, if_neg hc, hfl]
        rw [hstep]
        constructor
        · show startedIds (tr ++ [QEvent.completed id t]) ++ s.queue = List.range s.nextId
          rw [startedIds_append, startedIds_com, List.append_nil, h1]
        · show completedIds (tr ++ [QEvent.completed id t]) ++ restF =
            startedIds (tr ++ [QEvent.completed id t])
          rw [completedIds_append, startedIds_append, completedIds_com, startedIds_com,
            List.append_nil, hrest, List.append_nil]
          rw [hfl, hrest] at h2
          exact h2
        · show restF.length ≤ 1
          rw [hrest]
          simp
        · show false = !restF.isEmpty
          rw [hrest]
          rfl
        · intro ft hft
          rcases List.mem_append.mp hft with hft | hft
          · obtain ⟨i2, c2, hmem, heq⟩ := h5 ft hft
            exact ⟨i2, c2, List.mem_append_left _ hmem, heq⟩
          · simp at hft
            exact ⟨id, t, List.mem_append_right _ (by simp), hft⟩
        · intro i2 t2 hmem
          rcases List.mem_append.mp hmem with hmem | hmem
          · obtain ⟨i3, c3, hm3, hle3⟩ := h6 i2 t2 hmem
            exact ⟨i3, c3, List.mem_append_left _ hm3, hle3⟩
          · simp at hmem
  | timerFire t =>
    by_cases hc : t < s.clock
    · have hstep : stepQ s (.timerFire t) = (s, []) := by
        rw [stepQ, if_pos hc]
      rw [hstep, List.append_nil]
      exact ⟨h1, h2, h3, h4, h5, h6⟩
    · cases ht : s.timers with
      | nil =>
        have hstep : stepQ s (.timerFire t) = (s, []) := by
          rw [stepQ, if_neg hc, ht]
        rw [hstep, List.append_nil]
        exact ⟨h1, h2, h3, h4, h5, h6⟩
      | cons ft restT =>
        by_cases hft : ft ≤ t
        · have hstep : stepQ s (.timerFire t) =
              processQueueStep { s with timers := restT, clock := t } t true := by
            rw [stepQ, if_neg hc, ht]
            dsimp only
            rw [if_pos hft]
          rw [hstep]
          have hs' : QueueInv { s with timers := restT, clock := t } tr := by
            refine ⟨h1, h2, h3, h4, fun ft2 hft2 => ?_, h6⟩
            exact h5 ft2 (by rw [ht]; exact List.mem_cons_of_mem _ hft2)
          refine processQueueStep_inv _ _ t true hs' fun _ => ?_
          obtain ⟨i2, c2, hmem, heq⟩ := h5 ft (by rw [ht]; exact List.mem_cons_self _ _)
          exact ⟨i2, c2, hmem, by omega⟩
        · have hstep : stepQ s (.timerFire t) = (s, []) := by
            rw [stepQ, if_neg hc, ht]
            dsimp only
            rw [if_neg hft]
          rw [hstep, List.append_nil]
          exact ⟨h1, h2, h3, h4, h5, h6⟩

theorem runQFrom_inv : ∀ (acts : List QAction) (s : QState) (tr : List QEvent),
    QueueInv s tr → QueueInv (runQFrom s acts).1 (tr ++ (runQFrom s acts).2) := by
  intro acts
  induction acts with
  | nil =>
    intro s tr h
    rw [runQFrom, List.append_nil]
    exact h
  | cons a rest ih =>
    intro s tr h
    rw [runQFrom]
    have h1 := stepQ_inv s tr a h
    have h2 := ih (stepQ s a).1 (tr ++ (stepQ s a).2) h1
    simpa [List.append_assoc] using h2

theorem runQueue_inv (sched : List QAction) :
    QueueInv (runQueue sched).1 (runQueue sched).2 := by
  have := runQFrom_inv sched initQ [] queueInv_init
  simpa using this

theorem range_of_append {a b : List Nat} {n : Nat} (h : a ++ b = List.range n) :
    a = List.range a.length := by
  have hlen : a.length ≤ n := by
    have := congrArg List.length h
    simp at this
    omega
  calc a = (List.range n).take a.length := by rw [← h, List.take_left]
    _ = List.range (min a.length n) := List.take_range _ _
    _ = List.range a.length := by rw [Nat.min_eq_left hlen]

/-! ## Claim theorems -/

/-- C1: the request throttling queue admits at most one task in flight at any
instant (the final state of every schedule — hence, since every prefix of a
schedule is a schedule, every intermediate state of every execution — has at
most one running task), and tasks are started, completed and their futures
settled in FIFO order of enqueueing: the list of started ids and the list of
completed-and-settled ids of any execution are both initial segments
`0, 1, 2, …` of the arrival numbering, with completions a prefix of starts. -/
theorem queue_serializes_and_fifo (sched : List QAction) :
    (runQueue sched).1.inFlight.length ≤ 1 ∧
    startedIds (runQueue sched).2 = List.range (startedIds (runQueue sched).2).length ∧
    completedIds (runQueue sched).2 = List.range (completedIds (runQueue sched).2).length ∧
    (completedIds (runQueue sched).2).length ≤ (startedIds (runQueue sched).2).length := by
  obtain ⟨h1, h2, h3, h4, h5, h6⟩ := runQueue_inv sched
  refine ⟨h3, range_of_append h1, ?_, ?_⟩
  · exact range_of_append (h2.trans (range_of_append h1))
  · have := congrArg List.length h2
    simp at this
    omega

/-- C2 counterexample: with tasks enqueued at times 0 and 110 and the first
task completing at time 100, the second task starts at time 110 — only 10 ms
after the first task's completion, short of `THROTTLE_DELAY = 500` — because
`addToQueue` calls `processQueue()` directly when `isProcessing` is false,
bypassing the pending `setTimeout` delay. This refutes the claim that
consecutive tasks are always separated by at least the configured delay
regardless of when callers enqueue new tasks. -/
theorem throttle_spacing_counterexample :
    (runQueue [.enqueue 0, .complete 100, .enqueue 110]).2 =
      [QEvent.enqueued 0 0, QEvent.started 0 0 false, QEvent.completed 0 100,
        QEvent.enqueued 1 110, QEvent.started 1 110 false] ∧
    110 < 100 + THROTTLE_DELAY := by
  constructor
  · rfl
  · decide

/-- C2 (amended): the inter-task spacing holds only on the timer path — every
task start triggered by the drain loop's own `setTimeout` occurs at least
`THROTTLE_DELAY` after the completion that scheduled that timeout (hence after
some completion); a task start triggered directly by `addToQueue` while the
queue is idle carries no spacing guarantee. -/
theorem throttle_spacing_timer_path (sched : List QAction) (id t : Nat)
    (h : QEvent.started id t true ∈ (runQueue sched).2) :
    ∃ id' c, QEvent.completed id' c ∈ (runQueue sched).2 ∧ c + THROTTLE_DELAY ≤ t := by
  obtain ⟨_, _, _, _, _, h6⟩ := runQueue_inv sched
  exact h6 id t h

/-- Witness for the amended C2: a concrete schedule in which task 1 is started
by the throttle timeout at time 600, at least 500 ms after task 0 completed. -/
theorem throttle_spacing_timer_path_witness :
    ∃ id' c, QEvent.completed id' c ∈
        (runQueue [.enqueue 0, .enqueue 10, .complete 100, .timerFire 600]).2 ∧
      c + THROTTLE_DELAY ≤ 600 :=
  throttle_spacing_timer_path [.enqueue 0, .enqueue 10, .complete 100, .timerFire 600] 1 600
    (by decide)

/-- C3: when every attempt is rate-limited (429 status or a "too many
requests" message) and `maxRetries = 3`, `fetchWithRetry` makes exactly 3
calls, waits exactly the two delays `2^0 * 1000 = 1000` and `2^1 * 1000 =
2000` ms between them, and surfaces the last failure. -/
theorem retry_backoff_schedule (oracle : Nat → Except ExErr VideoInfo)
    (h : ∀ k, k < 3 → ∃ e, oracle k = .error e ∧ isRateLimitedErr e = true) :
    ∃ e2, oracle 2 = .error e2 ∧
      fetchWithRetry oracle 3 = (some (.error e2), [1000, 2000], 3) := by
  obtain ⟨e0, h0, r0⟩ := h 0 (by omega)
  obtain ⟨e1, h1, r1⟩ := h 1 (by omega)
  obtain ⟨e2, h2, r2⟩ := h 2 (by omega)
  refine ⟨e2, h2, ?_⟩
  simp [fetchWithRetry, fetchWithRetryAux, h0, h1, h2, r0, r1, r2]

/-- Witness for C3 at the always-rate-limited oracle. -/
theorem retry_backoff_schedule_witness :
    ∃ e2, rlOracle 2 = .error e2 ∧
      fetchWithRetry rlOracle 3 = (some (.error e2), [1000, 2000], 3) :=
  retry_backoff_schedule rlOracle (fun _ _ => ⟨⟨some 429, "too many requests"⟩, rfl, by decide⟩)

/-- C4 counterexample: in the proxy-rotation `fetchVideoInfo`, a failure that
is neither rate-limited (429) nor an authentication error (401/403) — here a
plain 500 — is retried with the next proxy rather than propagated immediately:
with two proxies the function makes 2 extraction calls, refuting "performing
no further retry attempts" for every non-rate-limited error. -/
theorem nonRateLimited_retry_counterexample :
    (fetchVideoInfo ["p1", "p2"] 0 none (fun _ => .error err500)).2.1 = 2 ∧
    (fetchVideoInfo ["p1", "p2"] 0 none (fun _ => .error err500)).1 = .error err500 :=
  ⟨rfl, rfl⟩

/-- C4 (amended): in `fetchWithRetry` every error not classified rate-limited
propagates immediately after a single call with no delays; in the
proxy-rotation `fetchVideoInfo` only authentication errors (statusCode 401 or
403) propagate immediately after a single call, while other non-rate-limited
errors are retried with the next proxy. -/
theorem nonRateLimited_error_propagation :
    (∀ (oracle : Nat → Except ExErr VideoInfo) (maxRetries : Nat) (e : ExErr),
      0 < maxRetries → oracle 0 = .error e → isRateLimitedErr e = false →
      fetchWithRetry oracle maxRetries = (some (.error e), [], 1))
    ∧ (∀ (p : String) (rest : List String) (idx : Nat) (refreshed : Option (List String))
        (oracle : Nat → Except ExErr VideoInfo) (e : ExErr),
      oracle 0 = .error e → (e.statusCode = some 401 ∨ e.statusCode = some 403) →
      (fetchVideoInfo (p :: rest) idx refreshed oracle).1 = .error e ∧
      (fetchVideoInfo (p :: rest) idx refreshed oracle).2.1 = 1) := by
  constructor
  · intro oracle maxRetries e hmr h0 hrl
    cases maxRetries with
    | zero => omega
    | succ n => simp [fetchWithRetry, fetchWithRetryAux, h0, hrl]
  · intro p rest idx refreshed oracle e h0 hst
    rcases hst with h | h <;> simp [fetchVideoInfo, fetchVideoInfoLoop, h0, h]

/-- Witness for the amended C4: a 403 error propagates after exactly one call
through both wrappers. -/
theorem nonRateLimited_error_propagation_witness :
    fetchWithRetry (fun _ => .error authErr403) 3 = (some (.error authErr403), [], 1) ∧
    (fetchVideoInfo ["p1"] 0 none (fun _ => .error authErr403)).1 = .error authErr403 ∧
    (fetchVideoInfo ["p1"] 0 none (fun _ => .error authErr403)).2.1 = 1 := by
  refine ⟨nonRateLimited_error_propagation.1 _ 3 authErr403 (by omega) rfl (by decide), ?_, ?_⟩
  · exact (nonRateLimited_error_propagation.2 "p1" [] 0 none _ authErr403 rfl (Or.inr rfl)).1
  · exact (nonRateLimited_error_propagation.2 "p1" [] 0 none _ authErr403 rfl (Or.inr rfl)).2

/-- C5: for a cached entry, a lookup more than `CACHE_TTL` after its insertion
timestamp misses — the upstream fetch is performed and the expired entry is
removed (gone on fetch failure, replaced by a fresh entry stamped `now` on
success) — while a lookup strictly within the TTL returns the stored metadata
and leaves the whole cache, in particular the entry and its timestamp,
untouched, with no fetch performed. -/
theorem cache_ttl_get (c : Cache) (vid : String) (now : Nat) (en : CacheEntry)
    (fetch : Except ExErr VideoInfo)
    (hnd : (c.map Prod.fst).Nodup) (hl : lookupCache c vid = some en) :
    (en.timestamp + CACHE_TTL < now →
        (getCachedVideoInfo c vid now fetch).2.2 = true ∧
        (getCachedVideoInfo c vid now fetch).1 = fetch ∧
        lookupCache (getCachedVideoInfo c vid now fetch).2.1 vid =
          (match fetch with | .error _ => none | .ok info => some ⟨info, now⟩))
    ∧ (now < en.timestamp + CACHE_TTL →
        (getCachedVideoInfo c vid now fetch).1 = .ok en.info ∧
        (getCachedVideoInfo c vid now fetch).2.1 = c ∧
        (getCachedVideoInfo c vid now fetch).2.2 = false) := by
  have httl : 0 < CACHE_TTL := by norm_num [CACHE_TTL]
  constructor
  · intro hexp
    have hcond : ¬ (now - en.timestamp < CACHE_TTL) := by omega
    rw [getCachedVideoInfo.eq_def, hl]
    simp only [if_neg hcond]
    cases fetch with
    | error e => exact ⟨rfl, rfl, lookup_eraseCache_self c vid hnd⟩
    | ok info =>
      refine ⟨rfl, rfl, ?_⟩
      exact lookup_putVideoInfo_self _ vid info now (nodup_keys_eraseCache c vid hnd)
  · intro hin
    have hcond : now - en.timestamp < CACHE_TTL := by omega
    rw [getCachedVideoInfo.eq_def, hl]
    simp [hcond]

/-- Witness for C5: the entry inserted at time 0 is expired at
`CACHE_TTL + 1 = 86400001`; the fetch runs and replaces it with a fresh
entry. -/
theorem cache_ttl_get_witness :
    (getCachedVideoInfo cacheA "a" 86400001 (.ok cexInfo)).2.2 = true ∧
    (getCachedVideoInfo cacheA "a" 86400001 (.ok cexInfo)).1 = .ok cexInfo ∧
    lookupCache (getCachedVideoInfo cacheA "a" 86400001 (.ok cexInfo)).2.1 "a" =
      some ⟨cexInfo, 86400001⟩ := by
  have h := (cache_ttl_get cacheA "a" 86400001 ⟨cexInfo, 0⟩ (.ok cexInfo)
    (by decide) rfl).1 (by decide)
  exact h

/-- C6 counterexample: a put into a cache already holding `MAX_CACHE_SIZE`
entries that all carry the sweep's current timestamp leaves the size at 1001,
above the capacity of 1000: the scan only considers entries strictly older
than `Date.now()`, finds none, and the `break` exits the sweep with nothing
evicted. This refutes "after any put completes, the cache size never exceeds
the configured capacity". -/
theorem cache_capacity_counterexample :
    MAX_CACHE_SIZE < (putVideoInfo bigCache "x" cexInfo 5).length := by
  have hkeys : ∀ p ∈ bigCache, (p.1 == "x") = false := by
    intro p hp
    obtain ⟨i, hi, rfl⟩ := List.mem_map.mp hp
    have hd : ∀ j, j < 1000 → (toString j == "x") = false := by
      set_option maxRecDepth 100000 in decide
    exact hd i (List.mem_range.mp hi)
  have hset : setCache bigCache "x" ⟨cexInfo, 5⟩ = bigCache ++ [("x", ⟨cexInfo, 5⟩)] :=
    setCache_append bigCache "x" ⟨cexInfo, 5⟩ hkeys
  have hlen : (setCache bigCache "x" (⟨cexInfo, 5⟩ : CacheEntry)).length = 1001 := by
    rw [hset]
    simp [bigCache]
  have hfresh : ∀ p ∈ setCache bigCache "x" (⟨cexInfo, 5⟩ : CacheEntry), 5 ≤ p.2.timestamp := by
    rw [hset]
    intro p hp
    rcases List.mem_append.mp hp with h | h
    · obtain ⟨i, _, rfl⟩ := List.mem_map.mp h
      exact le_rfl
    · simp at h
      subst h
      exact le_rfl
  have hmax : MAX_CACHE_SIZE < (setCache bigCache "x" (⟨cexInfo, 5⟩ : CacheEntry)).length := by
    rw [hlen]; norm_num [MAX_CACHE_SIZE]
  rw [putVideoInfo, if_pos hmax, cleanupCache, if_pos hmax, hlen]
  have h1001 : (1001 : Nat) = 1000 + 1 := rfl
  rw [h1001, sweepCache]
  rw [if_pos (by rw [hlen]; norm_num [CLEANUP_TARGET, MAX_CACHE_SIZE])]
  rw [findOldest_eq_of_fresh 5 _ hfresh]
  rw [hlen]
  norm_num [MAX_CACHE_SIZE]

/-- C6 (amended): after a put completes, either the cache size is within the
capacity (in fact the sweep, when it runs to its threshold, stops at 80% of
capacity) or every remaining entry carries a timestamp at or after the sweep's
current instant — the size can exceed capacity only in that degenerate case;
and each sweep iteration removes an entry with the globally smallest
timestamp: whenever the scan selects a key, that key holds an entry strictly
older than the current instant whose timestamp is minimal over the entire
cache. -/
theorem cache_eviction_bound_oldest_first :
    (∀ (c : Cache) (vid : String) (info : VideoInfo) (now : Nat),
      (putVideoInfo c vid info now).length ≤ MAX_CACHE_SIZE ∨
        ∀ p ∈ putVideoInfo c vid info now, now ≤ p.2.timestamp)
    ∧ (∀ (now : Nat) (c : Cache) (k : String), (findOldest now c).1 = some k →
        ∃ e, (k, e) ∈ c ∧ e.timestamp < now ∧ ∀ p ∈ c, e.timestamp ≤ p.2.timestamp) := by
  constructor
  · intro c vid info now
    rw [putVideoInfo]
    by_cases h1 : MAX_CACHE_SIZE < (setCache c vid ⟨info, now⟩).length
    · rw [if_pos h1, cleanupCache, if_pos h1]
      rcases sweepCache_spec now (setCache c vid ⟨info, now⟩).length
          (setCache c vid ⟨info, now⟩) le_rfl with h | h
      · left
        have : CLEANUP_TARGET ≤ MAX_CACHE_SIZE := by norm_num [CLEANUP_TARGET, MAX_CACHE_SIZE]
        omega
      · exact Or.inr h
    · rw [if_neg h1]
      left
      omega
  · exact fun now c k h => findOldest_some now c k h

/-- Witness for the amended C6: the put into the one-entry cache stays within
capacity, and on a cache whose single entry is older than the current instant
the scan selects exactly that globally-oldest entry. -/
theorem cache_eviction_bound_oldest_first_witness :
    ((putVideoInfo cacheA "b" cexInfo 5).length ≤ MAX_CACHE_SIZE ∨
      ∀ p ∈ putVideoInfo cacheA "b" cexInfo 5, 5 ≤ p.2.timestamp) ∧
    ∃ e, ("a", e) ∈ cacheA ∧ e.timestamp < 7 ∧ ∀ p ∈ cacheA, e.timestamp ≤ p.2.timestamp :=
  ⟨cache_eviction_bound_oldest_first.1 cacheA "b" cexInfo 5,
    cache_eviction_bound_oldest_first.2 7 cacheA "a" (by decide)⟩

/-- C7: the format selector sorts candidates by reliability descending then
bitrate descending (missing bitrate as 0) — the sorted list is a permutation
of the input and is ordered by `formatLE` — and `recommendedFormat` returns
the first reliable element of the sorted list, or its head when none is
reliable: on `[{reliable: false, bitrate: 320}, {reliable: true, bitrate:
128}]` it returns the reliable 128-bitrate format, and on `[{reliable: false,
bitrate: 320}, {reliable: false, bitrate: 128}]` the 320-bitrate one. -/
theorem format_selector_spec :
    (∀ l : List AFormat, (sortFormats l).Perm l)
    ∧ (∀ l : List AFormat, (sortFormats l).Sorted formatLE)
    ∧ recommendedFormat
        (sortFormats [annotateFormat "regular" fmtUnrel320, annotateFormat "regular" fmtRel128]) =
        some (annotateFormat "regular" fmtRel128)
    ∧ recommendedFormat
        (sortFormats [annotateFormat "regular" fmtUnrel320, annotateFormat "regular" fmtUnrel128]) =
        some (annotateFormat "regular" fmtUnrel320) := by
  refine ⟨fun l => List.perm_insertionSort formatLE l,
          fun l => List.sorted_insertionSort formatLE l, ?_, ?_⟩
  · decide
  · decide

/-- C8: when the upstream fetch for a video id fails with a sign-in-required
error (message containing "sign in") and the cache holds no valid entry for
that id (absent, or present but expired), the `/mp3/:videoId` handler answers
401 and the cache afterwards contains no entry for that id: the cache is
written only after a successful fetch. -/
theorem mp3_auth_error_no_cache_write (c : Cache) (vid : String) (now : Nat) (e : ExErr)
    (hnd : (c.map Prod.fst).Nodup)
    (hmiss : ∀ en, lookupCache c vid = some en → en.timestamp + CACHE_TTL ≤ now)
    (hsign : includesStr e.message "sign in" = true) :
    (mp3Handler c vid now (.error e)).1 = 401 ∧
    lookupCache (mp3Handler c vid now (.error e)).2 vid = none := by
  rw [mp3Handler.eq_def]
  cases hl : lookupCache c vid with
  | none =>
    rw [getCachedVideoInfo.eq_def, hl]
    simp only []
    constructor
    · simp [classifyMp3Error, hsign]
    · exact hl
  | some en =>
    have hexp := hmiss en hl
    have hcond : ¬ (now - en.timestamp < CACHE_TTL) := by omega
    rw [getCachedVideoInfo.eq_def, hl]
    simp only [if_neg hcond]
    constructor
    · simp [classifyMp3Error, hsign]
    · exact lookup_eraseCache_self c vid hnd

/-- Witness for C8: the empty cache and a sign-in error yield a 401 and no
cache entry. -/
theorem mp3_auth_error_no_cache_write_witness :
    (mp3Handler [] "xyz" 0 (.error signInErr)).1 = 401 ∧
    lookupCache (mp3Handler [] "xyz" 0 (.error signInErr)).2 "xyz" = none :=
  mp3_auth_error_no_cache_write [] "xyz" 0 signInErr (by decide)
    (fun en h => nomatch h) (by decide)

/-- C9 counterexample: no input — in particular no cookie-file read or parse
failure — makes `POST /reload-cookies` answer 500: `parseCookiesFile` catches
every failure internally and returns `[]`, so the handler's `catch` branch is
unreachable and the response is always 200. -/
theorem reload_cookies_no_500 :
    ¬ ∃ r : Except String String, (reloadCookiesHandler r).1 = 500 := by
  intro ⟨r, h⟩
  simp [reloadCookiesHandler] at h

/-- C9 (amended): `POST /reload-cookies` always answers 200 with the freshly
parsed cookie list; when reading the cookie file fails, the failure is
swallowed and the cookie list is reset to empty, not surfaced as a 500. -/
theorem reload_cookies_always_200 (r : Except String String) (msg : String) :
    (reloadCookiesHandler r).1 = 200 ∧
    (reloadCookiesHandler (.error msg)).2 = [] :=
  ⟨rfl, rfl⟩

/-- C10: in the proxy-rotation revision, calling `fetchVideoInfo` with its
default `maxRetries` while the proxy list is empty binds `maxRetries` to 0 at
call time; even though `refreshProxyList()` is awaited and may repopulate the
pool, the attempt loop runs zero iterations (zero extraction calls) and the
function throws `Failed to fetch video info after multiple attempts`. -/
theorem fetchVideoInfo_empty_pool_zero_attempts (idx : Nat)
    (refreshed : Option (List String)) (oracle : Nat → Except ExErr VideoInfo) :
    (fetchVideoInfo [] idx refreshed oracle).1 = .error exhaustedErr ∧
    (fetchVideoInfo [] idx refreshed oracle).2.1 = 0 := by
  cases refreshed <;> simp [fetchVideoInfo, fetchVideoInfoLoop]
